import Mathlib

/-!
Verification of the core pipeline of the `commit` repository: an AI-powered
git commit-message generator.  The repository holds several historical
variants of the same program; the current one is `src/index.ts` +
`src/lib/cli-utils.ts` + the AI-SDK `CommitGenerator`, with an older
Anthropic variant in `src/lib/commit-generator.ts` and two Go variants in
`main.go`.  Each definition below is a shallow embedding of one source
function, named after it where Lean allows.
-/

namespace Commit

/-! ## Basic string machinery

JavaScript regular-expression matching with literal delimiters and a lazy
capture, and `String.prototype.trim` / Go `strings.TrimSpace`, modelled
over `List Char`. -/

/-- `leadsWith pat s` is true when `pat` occurs at the start of `s`
(literal-string comparison, as in a regex literal delimiter). -/
def leadsWith : List Char → List Char → Bool
  | [], _ => true
  | _ :: _, [] => false
  | p :: ps, c :: cs => p = c && leadsWith ps cs

/-- Find the first occurrence of the literal `pat` in `s`; return the text
before it and the text after it.  `none` when `pat` does not occur. -/
def splitFirst (pat : List Char) : List Char → Option (List Char × List Char)
  | [] => if pat = [] then some ([], []) else none
  | c :: rest =>
    if leadsWith pat (c :: rest) then some ([], (c :: rest).drop pat.length)
    else (splitFirst pat rest).map fun p => (c :: p.1, p.2)

theorem leadsWith_nil_iff (pat : List Char) : leadsWith pat [] = true ↔ pat = [] := by
  cases pat <;> simp [leadsWith]

theorem splitFirst_length {pat : List Char} (hp : pat ≠ []) :
    ∀ {s a b : List Char}, splitFirst pat s = some (a, b) → b.length < s.length := by
  intro s
  induction s with
  | nil =>
    intro a b h
    simp [splitFirst, hp] at h
  | cons c rest ih =>
    intro a b h
    rw [splitFirst] at h
    by_cases hl : leadsWith pat (c :: rest) = true
    · rw [if_pos hl] at h
      have heq : (([] : List Char), (c :: rest).drop pat.length) = (a, b) :=
        Option.some.inj h
      cases heq
      have hlen : 0 < pat.length := by
        cases pat with
        | nil => exact absurd rfl hp
        | cons p ps => simp
      calc ((c :: rest).drop pat.length).length
          = (c :: rest).length - pat.length := by simp
        _ < (c :: rest).length := by
            apply Nat.sub_lt _ hlen
            simp [Nat.succ_pos]
    · rw [if_neg hl] at h
      rcases Option.map_eq_some'.mp h with ⟨⟨a', b'⟩, hrec, heq⟩
      cases heq
      exact Nat.lt_trans (ih hrec) (by simp)

/-- First lazy match of `opn (.*?) cls` in `s` (the `/s` flag lets the
capture span newlines): text between the first occurrence of `opn` and the
first occurrence of `cls` after it. -/
def extractFirst (opn cls s : List Char) : Option (List Char) :=
  match splitFirst opn s with
  | none => none
  | some pr =>
    match splitFirst cls pr.2 with
    | none => none
    | some pr2 => some pr2.1

/-- Fuel-indexed worker for `extractAll`.  Fuel only bounds the recursion
depth; by `splitFirst_length` each round strictly shortens the remaining
text, so `s.length + 1` units of fuel are always enough. -/
def extractAllGo (opn cls : List Char) : Nat → List Char → List (List Char)
  | 0, _ => []
  | fuel + 1, s =>
    match splitFirst opn s with
    | none => []
    | some pr =>
      match splitFirst cls pr.2 with
      | none => []
      | some pr2 => pr2.1 :: extractAllGo opn cls fuel pr2.2

/-- All lazy matches of `opn (.*?) cls` in `s` (the `/gs` flags): repeated
first-match extraction, resuming after each closing delimiter, as
`String.prototype.matchAll` does. -/
def extractAll (opn cls s : List Char) : List (List Char) :=
  extractAllGo opn cls (s.length + 1) s

/-- The whitespace class of JavaScript `String.prototype.trim` and Go
`strings.TrimSpace`, restricted to the ASCII characters that occur in this
program's data: space, tab, newline, carriage return, vertical tab, form
feed. -/
def isWs (c : Char) : Bool :=
  c = ' ' || c = '\t' || c = '\n' || c = '\r' || c = '\x0b' || c = '\x0c'

/-- `trimChars` strips leading and trailing whitespace, leaving the interior
untouched: the shared meaning of JS `.trim()` and Go `strings.TrimSpace`. -/
def trimChars (l : List Char) : List Char :=
  ((l.dropWhile isWs).reverse.dropWhile isWs).reverse

theorem dropWhile_head?_not {p : Char → Bool} :
    ∀ {l : List Char} {c : Char}, (l.dropWhile p).head? = some c → p c = false := by
  intro l
  induction l with
  | nil => intro c h; simp [List.dropWhile] at h
  | cons a rest ih =>
    intro c h
    by_cases hp : p a = true
    · rw [List.dropWhile_cons_of_pos hp] at h
      exact ih h
    · rw [List.dropWhile_cons_of_neg hp] at h
      simp at h
      subst h
      simpa using hp

theorem dropWhile_getLast?_of_ne_nil {p : Char → Bool} :
    ∀ {l : List Char}, l.dropWhile p ≠ [] → (l.dropWhile p).getLast? = l.getLast? := by
  intro l
  induction l with
  | nil => intro h; simp [List.dropWhile] at h
  | cons a rest ih =>
    intro h
    by_cases hp : p a = true
    · rw [List.dropWhile_cons_of_pos hp] at h ⊢
      rw [ih h]
      have hrest : rest ≠ [] := by
        intro hr; rw [hr] at h; simp [List.dropWhile] at h
      cases rest with
      | nil => exact absurd rfl hrest
      | cons b bs => simp [List.getLast?_cons_cons]
    · rw [List.dropWhile_cons_of_neg hp]

theorem trimChars_head?_not_ws {l : List Char} {c : Char}
    (h : (trimChars l).head? = some c) : isWs c = false := by
  unfold trimChars at h
  rw [List.head?_reverse] at h
  have hne : (List.dropWhile isWs (l.dropWhile isWs).reverse) ≠ [] := by
    intro hnil
    rw [hnil] at h
    simp at h
  rw [dropWhile_getLast?_of_ne_nil hne] at h
  rw [List.getLast?_reverse] at h
  exact dropWhile_head?_not h

theorem trimChars_getLast?_not_ws {l : List Char} {c : Char}
    (h : (trimChars l).getLast? = some c) : isWs c = false := by
  unfold trimChars at h
  rw [List.getLast?_reverse] at h
  exact dropWhile_head?_not h

/-! ## Message Composer: delimited-text response parsing

Embedding of the parsing tail of `CommitGenerator.generateMessages` in
`src/lib/commit-generator.ts`: the provider's free-text response is mined
for one `<commit_analysis>…</commit_analysis>` block (regex `/.../s`, first
match) and all `<commit_message>…</commit_message>` blocks (regex `/.../gs`
via `matchAll`); each message is `.trim()`ed and paired with the single
trimmed analysis; zero message blocks is an error, not an empty list. -/

/-- One candidate commit message plus its rationale
(`interface GeneratedCommit` in `src/lib/commit-generator.ts`). -/
structure GeneratedCommit where
  message : List Char
  analysis : List Char
  deriving DecidableEq, Repr

def openAnalysisTag : List Char := "<commit_analysis>".data

def closeAnalysisTag : List Char := "</commit_analysis>".data

def openMessageTag : List Char := "<commit_message>".data

def closeMessageTag : List Char := "</commit_message>".data

/-- `const analysis = analysisMatch ? analysisMatch[1].trim() : ""`. -/
def delimitedAnalysis (responseText : List Char) : List Char :=
  match extractFirst openAnalysisTag closeAnalysisTag responseText with
  | some a => trimChars a
  | none => []

/-- The raw captures of
`responseText.matchAll(/<commit_message>(.*?)<\/commit_message>/gs)`. -/
def delimitedMessageBlocks (responseText : List Char) : List (List Char) :=
  extractAll openMessageTag closeMessageTag responseText

/-- Parsing tail of `CommitGenerator.generateMessages`
(`src/lib/commit-generator.ts`): map every message block to a
`GeneratedCommit` sharing the one extracted analysis, and throw
`"No commit messages found in response"` when none matched. -/
def parseDelimitedResponse (responseText : List Char) :
    Except (List Char) (List GeneratedCommit) :=
  let analysis := delimitedAnalysis responseText
  let messages := (delimitedMessageBlocks responseText).map
    fun m => GeneratedCommit.mk (trimChars m) analysis
  if messages.length = 0 then
    Except.error "No commit messages found in response".data
  else
    Except.ok messages

/-- `generateMessage` in the flag-driven `main.go` variant returns
`strings.TrimSpace(res.Text())` for every style. -/
def goGenerateMessage (resText : List Char) : List Char :=
  trimChars resText

/-- A provider response with one analysis block and two message blocks. -/
def sampleDelimitedRaw : List Char :=
  ("<commit_analysis>A</commit_analysis>" ++
   "<commit_message>m1</commit_message><commit_message>m2</commit_message>").data

end Commit

namespace Commit

/-- C3: in delimited-text mode, parsing returns exactly one
`GeneratedCommit` per matched message block, every candidate carries the
same single extracted analysis, and zero matched blocks is a generation
error rather than an empty list. -/
theorem delimited_parse_one_per_block_shared_analysis (r : List Char) :
    (delimitedMessageBlocks r = [] →
      parseDelimitedResponse r =
        Except.error "No commit messages found in response".data) ∧
    (∀ l, parseDelimitedResponse r = Except.ok l →
      l.length = (delimitedMessageBlocks r).length ∧
      ∀ gc ∈ l, gc.analysis = delimitedAnalysis r) := by
  constructor
  · intro h
    simp [parseDelimitedResponse, h]
  · intro l hl
    unfold parseDelimitedResponse at hl
    by_cases hb : ((delimitedMessageBlocks r).map
        fun m => GeneratedCommit.mk (trimChars m) (delimitedAnalysis r)).length = 0
    · simp only [hb, if_pos] at hl
      exact absurd hl (by simp)
    · simp only [hb, if_neg, if_false] at hl
      have hl' : l = (delimitedMessageBlocks r).map
          fun m => GeneratedCommit.mk (trimChars m) (delimitedAnalysis r) :=
        (Except.ok.inj hl).symm
      subst hl'
      refine ⟨by simp, ?_⟩
      intro gc hgc
      simp only [List.mem_map] at hgc
      obtain ⟨m, hm, hEq⟩ := hgc
      rw [← hEq]

/-- Witness for C3: the error branch at a tagless response and the
shared-analysis fact at `sampleDelimitedRaw`. -/
theorem delimited_parse_one_per_block_shared_analysis_witness :
    parseDelimitedResponse "x".data =
      Except.error "No commit messages found in response".data ∧
    ∀ gc ∈ ([⟨"m1".data, "A".data⟩, ⟨"m2".data, "A".data⟩] : List GeneratedCommit),
      gc.analysis = delimitedAnalysis sampleDelimitedRaw :=
  ⟨(delimited_parse_one_per_block_shared_analysis "x".data).1 rfl,
   ((delimited_parse_one_per_block_shared_analysis sampleDelimitedRaw).2 _ rfl).2⟩

/-- C2 counterexample: a delimited response whose message block holds an
embedded newline is parsed into a `GeneratedCommit` whose message still
holds that newline — the Composer never strips interior newlines, only
leading/trailing whitespace. -/
theorem delimited_message_embedded_newline :
    parseDelimitedResponse "<commit_message>fix: a\nbody</commit_message>".data =
      Except.ok [⟨"fix: a\nbody".data, []⟩] ∧
    '\n' ∈ "fix: a\nbody".data :=
  ⟨rfl, by decide⟩

/-- C2 (amended): every message produced by the Composer is trimmed of
leading and trailing whitespace — in the delimited-text parser of
`src/lib/commit-generator.ts` and in `generateMessage` of `main.go` alike —
but embedded newlines may survive. -/
theorem composer_messages_trimmed (r : List Char) :
    (∀ l, parseDelimitedResponse r = Except.ok l → ∀ gc ∈ l, ∀ c,
      (gc.message.head? = some c → isWs c = false) ∧
      (gc.message.getLast? = some c → isWs c = false)) ∧
    (∀ c, ((goGenerateMessage r).head? = some c → isWs c = false) ∧
      ((goGenerateMessage r).getLast? = some c → isWs c = false)) := by
  constructor
  · intro l hl gc hgc c
    unfold parseDelimitedResponse at hl
    by_cases hb : ((delimitedMessageBlocks r).map
        fun m => GeneratedCommit.mk (trimChars m) (delimitedAnalysis r)).length = 0
    · simp only [hb, if_pos] at hl
      exact absurd hl (by simp)
    · simp only [hb, if_neg, if_false] at hl
      have hl' : l = (delimitedMessageBlocks r).map
          fun m => GeneratedCommit.mk (trimChars m) (delimitedAnalysis r) :=
        (Except.ok.inj hl).symm
      subst hl'
      simp only [List.mem_map] at hgc
      obtain ⟨m, hm, hEq⟩ := hgc
      rw [← hEq]
      exact ⟨fun h => trimChars_head?_not_ws h, fun h => trimChars_getLast?_not_ws h⟩
  · intro c
    exact ⟨fun h => trimChars_head?_not_ws h, fun h => trimChars_getLast?_not_ws h⟩

/-- Witness for C2 (amended): concrete head/last characters of parsed and
Go-trimmed messages are non-whitespace. -/
theorem composer_messages_trimmed_witness :
    isWs 'm' = false ∧ isWs '1' = false ∧ isWs 'a' = false :=
  ⟨(((composer_messages_trimmed sampleDelimitedRaw).1 _ rfl
      ⟨"m1".data, "A".data⟩ (by decide) 'm').1 rfl),
   (((composer_messages_trimmed sampleDelimitedRaw).1 _ rfl
      ⟨"m1".data, "A".data⟩ (by decide) '1').2 rfl),
   (((composer_messages_trimmed " a ".data).2 'a').1 rfl)⟩

/-! ## Provider Gateway: multi-suggestion fan-out (AI-SDK variant)

The AI-SDK `CommitGenerator.generateMessages` builds three prompt variants,
runs them through `Promise.allSettled`, keeps the fulfilled results and
throws only when every branch was rejected. -/

/-- `results.filter(fulfilled).map(value)`: the candidates of the branches
that succeeded, in branch order. -/
def settledCommits (results : List (Except (List Char) GeneratedCommit)) :
    List GeneratedCommit :=
  results.filterMap fun r =>
    match r with
    | Except.ok c => some c
    | Except.error _ => none

/-- Aggregation tail of the AI-SDK `CommitGenerator.generateMessages`:
`if (commits.length === 0) throw new Error("Failed to generate any commit
messages")`, otherwise return the fulfilled candidates. -/
def generateMessagesSettle (results : List (Except (List Char) GeneratedCommit)) :
    Except (List Char) (List GeneratedCommit) :=
  let commits := settledCommits results
  if commits.length = 0 then
    Except.error "Failed to generate any commit messages".data
  else
    Except.ok commits

/-- Whether a settled generation branch succeeded. -/
def branchOk : Except (List Char) GeneratedCommit → Bool
  | Except.ok _ => true
  | Except.error _ => false

/-! ## Provider Gateway: credential resolution (AI-SDK variant) -/

/-- `type ProviderType = "openai" | "anthropic" | "google" | "groq"`
(`src/lib/cli-utils.ts`). -/
inductive ProviderType where
  | openai
  | anthropic
  | google
  | groq
  deriving DecidableEq, Repr

/-- The `envKeyMap` table repeated in `cli-utils.ts` and the AI-SDK
generator: the one environment variable consulted per provider. -/
def envKeyName : ProviderType → List Char
  | ProviderType.openai => "OPENAI_API_KEY".data
  | ProviderType.anthropic => "ANTHROPIC_API_KEY".data
  | ProviderType.google => "GOOGLE_GENERATIVE_AI_API_KEY".data
  | ProviderType.groq => "GROQ_API_KEY".data

/-- The provider tag as the string interpolated into error messages. -/
def providerName : ProviderType → List Char
  | ProviderType.openai => "openai".data
  | ProviderType.anthropic => "anthropic".data
  | ProviderType.google => "google".data
  | ProviderType.groq => "groq".data

/-- `interface Config` of `src/lib/cli-utils.ts`: provider, model, and an
optional stored API key. -/
structure Config where
  provider : ProviderType
  model : List Char
  apiKey : Option (List Char)
  deriving DecidableEq, Repr

/-- JavaScript truthiness of an optional string: `undefined` and `""` are
falsy (`!!config.apiKey`, `!!process.env[envKey]`). -/
def strTruthy : Option (List Char) → Bool
  | some s => !s.isEmpty
  | none => false

/-- Error text of `CommitGenerator.getEnvApiKey`. -/
def noKeyConfigureMsg (p : ProviderType) : List Char :=
  "No API key found for ".data ++ providerName p ++
    ". Please set ".data ++ envKeyName p ++
    " environment variable or configure it with \x27commit config\x27.".data

/-- `CommitGenerator.getEnvApiKey` (AI-SDK variant): read the provider's
environment variable; a missing or empty value throws an error naming that
variable.  The environment is passed explicitly as a lookup function. -/
def getEnvApiKey (cfg : Config) (env : List Char → Option (List Char)) :
    Except (List Char) (List Char) :=
  match env (envKeyName cfg.provider) with
  | some k => if k.isEmpty then Except.error (noKeyConfigureMsg cfg.provider)
              else Except.ok k
  | none => Except.error (noKeyConfigureMsg cfg.provider)

/-- `this.config.apiKey || this.getEnvApiKey()` at the top of
`CommitGenerator.generateWithAI`: the configuration-stored key wins when
truthy, else the provider's environment variable is consulted. -/
def resolveApiKey (cfg : Config) (env : List Char → Option (List Char)) :
    Except (List Char) (List Char) :=
  match cfg.apiKey with
  | some k => if k.isEmpty then getEnvApiKey cfg env else Except.ok k
  | none => getEnvApiKey cfg env

/-- `CommitGenerator.generateWithAI`, with the remote `generateObject` call
abstracted as `remote`: the API key is resolved before the `try` block, so
a resolution failure propagates before the remote call is made; a remote
result with an empty message is rejected and an empty analysis is replaced
by `"Generated commit message"`. -/
def generateWithAI (cfg : Config) (env : List Char → Option (List Char))
    (remote : List Char → Except (List Char) GeneratedCommit)
    (prompt : List Char) : Except (List Char) GeneratedCommit :=
  match resolveApiKey cfg env with
  | Except.error e => Except.error e
  | Except.ok _ =>
    match remote prompt with
    | Except.error e =>
      Except.error ("Failed to generate commit message: ".data ++ e)
    | Except.ok gc =>
      if gc.message.isEmpty then
        Except.error ("Failed to generate commit message: ".data ++
          "AI response missing commit message".data)
      else
        Except.ok ⟨gc.message,
          if gc.analysis.isEmpty then "Generated commit message".data
          else gc.analysis⟩

/-- `ensureApiKey` of `src/lib/cli-utils.ts`: fails unless the provider's
environment variable or the stored key is truthy; the error names the
environment variable. -/
def ensureApiKey (cfg : Config) (env : List Char → Option (List Char)) :
    Except (List Char) Unit :=
  let hasEnvKey := strTruthy (env (envKeyName cfg.provider))
  let hasConfigKey := strTruthy cfg.apiKey
  if !hasEnvKey && !hasConfigKey then
    Except.error ("No API key found for ".data ++ providerName cfg.provider ++
      ". Please set ".data ++ envKeyName cfg.provider ++
      " environment variable or run \x27commit config\x27 to configure it.".data)
  else
    Except.ok ()

/-! ## Configuration Store (`src/lib/cli-utils.ts`) -/

/-- The fields `JSON.parse` can recover from `~/.commitrc`; `none` marks a
field absent from the file. -/
structure StoredConfig where
  provider : Option ProviderType
  model : Option (List Char)
  apiKey : Option (List Char)
  deriving DecidableEq, Repr

/-- The `defaultConfig` literal inside `loadConfig`. -/
def defaultConfig : Config :=
  ⟨ProviderType.groq, "meta-llama/llama-4-scout-17b-16e-instruct".data, none⟩

/-- The on-disk states `loadConfig` distinguishes: no file, an unreadable
file, an unparseable file, or a parsed record. -/
inductive ConfigFile where
  | absent
  | unreadable
  | corrupt
  | stored (s : StoredConfig)
  deriving DecidableEq, Repr

/-- `saveConfig`: `JSON.stringify(config)` always writes `provider` and
`model`; `apiKey` is written only when defined. -/
def saveConfig (c : Config) : StoredConfig :=
  ⟨some c.provider, some c.model, c.apiKey⟩

/-- `loadConfig`: return `{...defaultConfig, ...parsed}` when the file
exists and parses; on a missing, unreadable, or corrupt file return the
defaults (the `catch` only warns).  Total — no error escapes. -/
def loadConfig : ConfigFile → Config
  | ConfigFile.absent => defaultConfig
  | ConfigFile.unreadable => defaultConfig
  | ConfigFile.corrupt => defaultConfig
  | ConfigFile.stored s =>
    { provider := s.provider.getD defaultConfig.provider
      model := s.model.getD defaultConfig.model
      apiKey := match s.apiKey with
        | some k => some k
        | none => defaultConfig.apiKey }

/-- C4: the three-branch multi-suggestion fan-out succeeds, yielding the
successful candidates, whenever at least one branch succeeds, and fails as
a whole if and only if all three branches fail. -/
theorem multiSuggestion_bestEffort (r1 r2 r3 : Except (List Char) GeneratedCommit) :
    ((∃ l, generateMessagesSettle [r1, r2, r3] = Except.ok l) ↔
      (branchOk r1 || branchOk r2 || branchOk r3) = true) ∧
    (∀ l, generateMessagesSettle [r1, r2, r3] = Except.ok l →
      l = settledCommits [r1, r2, r3]) ∧
    ((branchOk r1 || branchOk r2 || branchOk r3) = false →
      generateMessagesSettle [r1, r2, r3] =
        Except.error "Failed to generate any commit messages".data) := by
  refine ⟨?_, ?_, ?_⟩
  · cases r1 <;> cases r2 <;> cases r3 <;>
      simp [generateMessagesSettle, settledCommits, branchOk]
  · intro l hl
    unfold generateMessagesSettle at hl
    by_cases hz : (settledCommits [r1, r2, r3]).length = 0
    · simp only [hz, if_pos] at hl
      exact absurd hl (by simp)
    · simp only [hz, if_neg, if_false] at hl
      exact (Except.ok.inj hl).symm
  · intro h
    cases r1 <;> cases r2 <;> cases r3 <;>
      simp_all [generateMessagesSettle, settledCommits, branchOk]

/-- Witness for C4: two failing branches and one succeeding branch yield
that one candidate; three failing branches yield the aggregate error. -/
theorem multiSuggestion_bestEffort_witness :
    ((settledCommits [Except.error "x".data,
        Except.ok ⟨"m".data, "a".data⟩, Except.error "y".data]) =
      [⟨"m".data, "a".data⟩]) ∧
    generateMessagesSettle
        [Except.error "x".data, Except.error "y".data, Except.error "z".data] =
      Except.error "Failed to generate any commit messages".data :=
  ⟨((multiSuggestion_bestEffort (Except.error "x".data)
      (Except.ok ⟨"m".data, "a".data⟩) (Except.error "y".data)).2.1 _ rfl).symm,
   (multiSuggestion_bestEffort (Except.error "x".data) (Except.error "y".data)
      (Except.error "z".data)).2.2 rfl⟩

/-- C5: credentials resolve configuration-stored key first (the per-call
`Config` handed to the generator), then the environment variable of the
selected provider; when neither yields a credential the operation fails
with a message naming that environment variable, and the remote generation
call is never made (the result does not depend on `remote`). -/
theorem credential_resolution_order (cfg : Config)
    (env : List Char → Option (List Char)) :
    (∀ k, cfg.apiKey = some k → k ≠ [] → resolveApiKey cfg env = Except.ok k) ∧
    (strTruthy cfg.apiKey = false →
      ∀ k, env (envKeyName cfg.provider) = some k → k ≠ [] →
        resolveApiKey cfg env = Except.ok k) ∧
    (strTruthy cfg.apiKey = false →
      strTruthy (env (envKeyName cfg.provider)) = false →
      resolveApiKey cfg env = Except.error (noKeyConfigureMsg cfg.provider) ∧
      (∃ s t, s ++ envKeyName cfg.provider ++ t = noKeyConfigureMsg cfg.provider) ∧
      ∀ remote prompt, generateWithAI cfg env remote prompt =
        Except.error (noKeyConfigureMsg cfg.provider)) := by
  refine ⟨?_, ?_, ?_⟩
  · intro k hk hne
    simp [resolveApiKey, hk, List.isEmpty_iff, hne]
  · intro hfalsy k hk hne
    have hres : resolveApiKey cfg env = getEnvApiKey cfg env := by
      cases hck : cfg.apiKey with
      | none => simp [resolveApiKey, hck]
      | some ck =>
        rw [hck] at hfalsy
        have hcke : ck.isEmpty = true := by simpa [strTruthy] using hfalsy
        simp [resolveApiKey, hck, hcke]
    rw [hres]
    simp [getEnvApiKey, hk, List.isEmpty_iff, hne]
  · intro hfalsy henv
    have hres : resolveApiKey cfg env = getEnvApiKey cfg env := by
      cases hck : cfg.apiKey with
      | none => simp [resolveApiKey, hck]
      | some ck =>
        rw [hck] at hfalsy
        have hcke : ck.isEmpty = true := by simpa [strTruthy] using hfalsy
        simp [resolveApiKey, hck, hcke]
    have hget : getEnvApiKey cfg env = Except.error (noKeyConfigureMsg cfg.provider) := by
      cases he : env (envKeyName cfg.provider) with
      | none => simp [getEnvApiKey, he]
      | some k =>
        rw [he] at henv
        have hke : k.isEmpty = true := by simpa [strTruthy] using henv
        simp [getEnvApiKey, he, hke]
    refine ⟨hres.trans hget, ?_, ?_⟩
    · exact ⟨"No API key found for ".data ++ providerName cfg.provider ++
        ". Please set ".data,
        " environment variable or configure it with \x27commit config\x27.".data,
        by simp [noKeyConfigureMsg]⟩
    · intro remote prompt
      unfold generateWithAI
      rw [hres.trans hget]

/-- Witness for C5: a stored key wins, an environment key is used when no
key is stored, and with neither the resolution fails naming
`GROQ_API_KEY` without consulting the remote. -/
theorem credential_resolution_order_witness :
    resolveApiKey ⟨ProviderType.groq, "m".data, some "ck".data⟩ (fun _ => none) =
      Except.ok "ck".data ∧
    resolveApiKey ⟨ProviderType.groq, "m".data, none⟩
        (fun k => if k = "GROQ_API_KEY".data then some "ek".data else none) =
      Except.ok "ek".data ∧
    resolveApiKey ⟨ProviderType.groq, "m".data, none⟩ (fun _ => none) =
      Except.error (noKeyConfigureMsg ProviderType.groq) ∧
    generateWithAI ⟨ProviderType.groq, "m".data, none⟩ (fun _ => none)
        (fun _ => Except.ok ⟨"never".data, "called".data⟩) "p".data =
      Except.error (noKeyConfigureMsg ProviderType.groq) :=
  ⟨(credential_resolution_order ⟨ProviderType.groq, "m".data, some "ck".data⟩
      (fun _ => none)).1 _ rfl (by decide),
   (credential_resolution_order ⟨ProviderType.groq, "m".data, none⟩
      (fun k => if k = "GROQ_API_KEY".data then some "ek".data else none)).2.1
      rfl _ (by decide) (by decide),
   ((credential_resolution_order ⟨ProviderType.groq, "m".data, none⟩
      (fun _ => none)).2.2 rfl rfl).1,
   ((credential_resolution_order ⟨ProviderType.groq, "m".data, none⟩
      (fun _ => none)).2.2 rfl rfl).2.2 _ _⟩

/-- C6: saving a configuration and loading it back restores every field
that was set, and a stored file with no recognizable fields loads as the
hard-coded defaults. -/
theorem config_save_load_roundTrip :
    (∀ c : Config, loadConfig (ConfigFile.stored (saveConfig c)) = c) ∧
    loadConfig (ConfigFile.stored ⟨none, none, none⟩) = defaultConfig := by
  constructor
  · intro c
    cases c with
    | mk p m k =>
      cases k <;> simp [loadConfig, saveConfig, defaultConfig]
  · rfl

/-- C7: configuration load never fails — every on-disk state yields a
complete configuration; absent/unreadable/corrupt files yield exactly the
defaults, and a parsed record supplies only the fields it holds, the rest
falling back to the defaults. -/
theorem config_load_never_fails (f : ConfigFile) :
    (f = ConfigFile.absent ∨ f = ConfigFile.unreadable ∨ f = ConfigFile.corrupt →
      loadConfig f = defaultConfig) ∧
    (∀ s, f = ConfigFile.stored s →
      (s.provider = none → (loadConfig f).provider = defaultConfig.provider) ∧
      (s.model = none → (loadConfig f).model = defaultConfig.model) ∧
      (s.apiKey = none → (loadConfig f).apiKey = defaultConfig.apiKey) ∧
      (∀ p, s.provider = some p → (loadConfig f).provider = p) ∧
      (∀ m, s.model = some m → (loadConfig f).model = m) ∧
      (∀ k, s.apiKey = some k → (loadConfig f).apiKey = some k)) := by
  constructor
  · rintro (rfl | rfl | rfl) <;> rfl
  · rintro s rfl
    refine ⟨fun h => ?_, fun h => ?_, fun h => ?_, fun p h => ?_, fun m h => ?_,
      fun k h => ?_⟩ <;> simp [loadConfig, h]

/-- Witness for C7: a corrupt file loads as the defaults; a file holding
only a provider keeps the default model and adopts that provider. -/
theorem config_load_never_fails_witness :
    loadConfig ConfigFile.corrupt = defaultConfig ∧
    (loadConfig (ConfigFile.stored ⟨some ProviderType.openai, none, none⟩)).model =
      defaultConfig.model ∧
    (loadConfig (ConfigFile.stored ⟨some ProviderType.openai, none, none⟩)).provider =
      ProviderType.openai :=
  ⟨(config_load_never_fails ConfigFile.corrupt).1 (Or.inr (Or.inr rfl)),
   ((config_load_never_fails _).2 _ rfl).2.1 rfl,
   ((config_load_never_fails _).2 _ rfl).2.2.2.1 _ rfl⟩

/-! ## Commit Executor: `gitCommit` of the flag-driven `main.go` variant -/

/-- `type Style string` with its three constants. -/
inductive Style where
  | conventional
  | simple
  | detailed
  deriving DecidableEq, Repr

/-- `gitCommit(msg, style)`: for `StyleDetailed` the message is
`strings.SplitN(msg, "\n", 2)`; the first piece becomes the first `-m`
argument (trimmed) and, only when a newline was present, the remainder
becomes a second `-m` argument (trimmed).  Every other style passes the
message as a single `-m` argument, untouched. -/
def gitCommitArgs (msg : List Char) (style : Style) : List (List Char) :=
  match style with
  | Style.detailed =>
    match splitFirst ['\n'] msg with
    | some pr =>
      ["commit".data, "-m".data, trimChars pr.1, "-m".data, trimChars pr.2]
    | none => ["commit".data, "-m".data, trimChars msg]
  | _ => ["commit".data, "-m".data, msg]

/-- Number of `-m` message parts the underlying `git commit` receives. -/
def messagePartCount (args : List (List Char)) : Nat :=
  args.count "-m".data

theorem splitFirst_single_isSome (c : Char) :
    ∀ s : List Char, (splitFirst [c] s).isSome = true ↔ c ∈ s := by
  intro s
  induction s with
  | nil => simp [splitFirst]
  | cons a rest ih =>
    by_cases hca : c = a
    · subst hca
      simp [splitFirst, leadsWith]
    · rw [splitFirst]
      have hl : leadsWith [c] (a :: rest) = false := by
        simp [leadsWith, hca]
      rw [hl]
      simp only [Bool.false_eq_true, if_false, Option.isSome_map]
      simp [ih, hca]

/-! ## Interaction Controller: AI-SDK `generateCommitMessage` tail -/

/-- `CommitOptions` of the AI-SDK variant, restricted to the flags the
selection/commit tail consumes. -/
structure CommitOptions where
  staged : Bool
  interactive : Bool
  add : Bool
  quick : Bool
  deriving DecidableEq, Repr

/-- Observable interaction trace of one run of the selection/commit tail. -/
structure RunTrace where
  selectionPrompted : Bool
  confirmPrompted : Bool
  selected : List Char
  stagedAll : Bool
  committed : Bool
  deriving DecidableEq, Repr

/-- Selection/commit tail of the AI-SDK `CommitGenerator.generateCommitMessage`
(after `generateMessages` returned a non-empty `commits`):
`promptForCommitMessage` runs only when `options.interactive` and more than
one candidate exists, otherwise `commits[0].message` is used; quick mode
then calls `commitChanges(selected, {...options, add: true})` with no
confirmation, while normal mode asks `confirmCommit` first and cancels on a
negative answer. -/
def generateCommitMessageFlow (options : CommitOptions)
    (commits : List GeneratedCommit) (userChoice : List Char)
    (userConfirm : Bool) : RunTrace :=
  let interactiveSel := options.interactive && commits.length > 1
  let selected := if interactiveSel then userChoice
    else (commits.headD ⟨[], []⟩).message
  if options.quick then
    { selectionPrompted := interactiveSel
      confirmPrompted := false
      selected := selected
      stagedAll := true
      committed := true }
  else
    { selectionPrompted := interactiveSel
      confirmPrompted := true
      selected := selected
      stagedAll := options.add
      committed := userConfirm }

/-! ## Pipeline short-circuit: the flag-driven `main.go` variant

The portion of `main` from the pending-changes pre-check
(`git diff --staged --quiet` / `git diff-index --quiet HEAD`) onward,
with the git queries, the generation calls and the user's pick abstracted
as inputs. -/

/-- `type Action string`: commit or clipboard. -/
inductive GoAction where
  | commit
  | clipboard
  deriving DecidableEq, Repr

/-- What one run observably did after the pre-check. -/
structure MainTrace where
  noChangesMsg : Option (List Char)
  remoteCalls : Nat
  ranGitAdd : Bool
  committed : Bool
  exitCode : Nat
  deriving DecidableEq, Repr

/-- Tail of `main` once a commit message is in hand: `ActionCommit` runs
`git add .` then `gitCommit` (fatal on failure); `ActionClipboard` copies
and exits zero. -/
def mainFinish (calls : Nat) (action : GoAction) (commitOk : Bool) : MainTrace :=
  match action with
  | GoAction.commit => ⟨none, calls, true, commitOk, if commitOk then 0 else 1⟩
  | GoAction.clipboard => ⟨none, calls, false, false, 0⟩

/-- `main` from the pending-changes pre-check onward (`main.go`,
flag-driven variant).  `checkClean` is the pre-check verdict (`git diff
--staged --quiet` when `-s`/after `-a`, else `git diff-index --quiet
HEAD`); a clean verdict prints the no-changes message and returns with
exit code zero before any git data collection or generation.  Otherwise an
empty diff also exits cleanly, and generation runs three branches in
interactive mode (keeping error-free, non-empty results) or one branch
otherwise, dying non-zero when nothing usable was generated. -/
def mainFromCheck (stagedFlag interactive : Bool) (action : GoAction)
    (checkClean : Bool) (diff : List Char)
    (genResults : List (Except (List Char) (List Char)))
    (commitOk : Bool) : MainTrace :=
  if checkClean then
    { noChangesMsg := some (if stagedFlag then "No staged changes detected.".data
        else "No changes detected.".data)
      remoteCalls := 0
      ranGitAdd := false
      committed := false
      exitCode := 0 }
  else if diff.isEmpty then
    { noChangesMsg := some "No diff found.".data
      remoteCalls := 0
      ranGitAdd := false
      committed := false
      exitCode := 0 }
  else if interactive then
    let msgs := (genResults.take 3).filterMap fun r =>
      match r with
      | Except.ok m => if m.isEmpty then none else some m
      | Except.error _ => none
    if msgs.isEmpty then ⟨none, 3, false, false, 1⟩
    else mainFinish 3 action commitOk
  else
    match genResults.headD (Except.error []) with
    | Except.error _ => ⟨none, 1, false, false, 1⟩
    | Except.ok _ => mainFinish 1 action commitOk

/-! ## Commit Executor: shell command built by `commitChanges` -/

/-- `message.replace(/"/g, '\\"')`: each double quote becomes
backslash-quote; every other character is copied as is. -/
def escapeQuotes : List Char → List Char
  | [] => []
  | c :: rest =>
    if c = '"' then '\\' :: '"' :: escapeQuotes rest
    else c :: escapeQuotes rest

/-- The exact string handed to `execSync` by `commitChanges`:
`'git commit -m "' + escapedMessage + '"'`. -/
def commitCommand (message : List Char) : List Char :=
  "git commit -m \"".data ++ escapeQuotes message ++ "\"".data

theorem escapeQuotes_eq_bind (m : List Char) :
    escapeQuotes m = m.flatMap fun c => if c = '"' then ['\\', '"'] else [c] := by
  induction m with
  | nil => simp [escapeQuotes]
  | cons c rest ih =>
    by_cases hc : c = '"'
    · subst hc
      simp [escapeQuotes, ih]
    · simp [escapeQuotes, hc, ih]

/-- C1: whenever the pending-changes pre-check reports a clean tree, the
run prints the no-changes message, makes zero remote generation calls,
performs no staging or commit after the check, and exits with code zero. -/
theorem noChanges_shortCircuit (stagedFlag interactive : Bool) (action : GoAction)
    (checkClean : Bool) (diff : List Char)
    (genResults : List (Except (List Char) (List Char)))
    (commitOk : Bool)
    (h : checkClean = true) :
    mainFromCheck stagedFlag interactive action checkClean diff genResults commitOk =
      { noChangesMsg := some (if stagedFlag then "No staged changes detected.".data
          else "No changes detected.".data)
        remoteCalls := 0
        ranGitAdd := false
        committed := false
        exitCode := 0 } := by
  subst h
  simp [mainFromCheck]

/-- Witness for C1: a concrete clean-tree invocation short-circuits. -/
theorem noChanges_shortCircuit_witness :
    mainFromCheck false true GoAction.commit true "d".data
        [Except.ok "m".data] true =
      { noChangesMsg := some "No changes detected.".data
        remoteCalls := 0
        ranGitAdd := false
        committed := false
        exitCode := 0 } :=
  noChanges_shortCircuit false true GoAction.commit true "d".data
    [Except.ok "m".data] true rfl

/-- C8 counterexample: a detailed-style commit whose message holds no
newline is issued with exactly one `-m` part, not two. -/
theorem gitCommit_detailed_single_part_counterexample :
    gitCommitArgs "fix: x".data Style.detailed =
      ["commit".data, "-m".data, "fix: x".data] ∧
    messagePartCount (gitCommitArgs "fix: x".data Style.detailed) = 1 :=
  ⟨rfl, rfl⟩

/-- C8 (amended): `gitCommit` branches on style — detailed style issues
two `-m` parts (trimmed title, trimmed description) exactly when the
message holds a newline, and one trimmed part otherwise; every other style
issues the message as a single untouched `-m` part. -/
theorem gitCommit_messageParts (msg : List Char) (style : Style) :
    (style = Style.detailed → '\n' ∈ msg →
      ∃ a b, splitFirst ['\n'] msg = some (a, b) ∧
        gitCommitArgs msg style =
          ["commit".data, "-m".data, trimChars a, "-m".data, trimChars b]) ∧
    (style = Style.detailed → '\n' ∉ msg →
      gitCommitArgs msg style = ["commit".data, "-m".data, trimChars msg]) ∧
    (style ≠ Style.detailed →
      gitCommitArgs msg style = ["commit".data, "-m".data, msg]) := by
  refine ⟨?_, ?_, ?_⟩
  · rintro rfl hmem
    have hsome : (splitFirst ['\n'] msg).isSome = true :=
      (splitFirst_single_isSome '\n' msg).mpr hmem
    obtain ⟨⟨a, b⟩, hab⟩ := Option.isSome_iff_exists.mp hsome
    exact ⟨a, b, hab, by simp [gitCommitArgs, hab]⟩
  · rintro rfl hmem
    have hnone : splitFirst ['\n'] msg = none := by
      cases hs : splitFirst ['\n'] msg with
      | none => rfl
      | some pr =>
        exact absurd ((splitFirst_single_isSome '\n' msg).mp (by simp [hs])) hmem
    simp [gitCommitArgs, hnone]
  · intro hne
    cases style with
    | conventional => rfl
    | simple => rfl
    | detailed => exact absurd rfl hne

/-- Witness for C8 (amended): a two-line detailed message yields two
trimmed parts; a simple-style message is passed through as one part. -/
theorem gitCommit_messageParts_witness :
    gitCommitArgs "t1 \n d1".data Style.detailed =
      ["commit".data, "-m".data, "t1".data, "-m".data, "d1".data] ∧
    gitCommitArgs "one line".data Style.simple =
      ["commit".data, "-m".data, "one line".data] := by
  constructor
  · obtain ⟨a, b, hab, hargs⟩ :=
      (gitCommit_messageParts "t1 \n d1".data Style.detailed).1 rfl (by decide)
    have hpair : (a, b) = ("t1 ".data, " d1".data) :=
      Option.some.inj (hab.symm.trans rfl)
    have ha : a = "t1 ".data := congrArg Prod.fst hpair
    have hb : b = " d1".data := congrArg Prod.snd hpair
    rw [hargs, ha, hb]
    decide
  · exact (gitCommit_messageParts "one line".data Style.simple).2.2 (by decide)

/-- C9 counterexample: a quick-mode invocation that also carries the
interactive flag, with two generated candidates, does issue the
multi-candidate selection prompt and commits the user's choice rather than
the first candidate. -/
theorem quick_mode_prompts_counterexample :
    (generateCommitMessageFlow ⟨false, true, false, true⟩
        [⟨"a".data, "x".data⟩, ⟨"b".data, "y".data⟩] "b".data true).selectionPrompted
      = true ∧
    (generateCommitMessageFlow ⟨false, true, false, true⟩
        [⟨"a".data, "x".data⟩, ⟨"b".data, "y".data⟩] "b".data true).selected
      = "b".data ∧
    "b".data ≠ "a".data :=
  ⟨rfl, rfl, by decide⟩

/-- C9 (amended): quick mode never asks for confirmation — it auto-stages
and commits unconditionally — and skips candidate selection, taking the
first candidate, unless the interactive flag is also set alongside more
than one candidate (in which case a selection prompt is issued). -/
theorem quick_mode_no_confirmation (options : CommitOptions)
    (commits : List GeneratedCommit) (userChoice : List Char) (userConfirm : Bool)
    (hq : options.quick = true) :
    (generateCommitMessageFlow options commits userChoice userConfirm).confirmPrompted
        = false ∧
    (generateCommitMessageFlow options commits userChoice userConfirm).stagedAll
        = true ∧
    (generateCommitMessageFlow options commits userChoice userConfirm).committed
        = true ∧
    (options.interactive = false ∨ commits.length ≤ 1 →
      (generateCommitMessageFlow options commits userChoice
          userConfirm).selectionPrompted = false ∧
      ∀ c rest, commits = c :: rest →
        (generateCommitMessageFlow options commits userChoice
          userConfirm).selected = c.message) := by
  refine ⟨by simp [generateCommitMessageFlow, hq], by simp [generateCommitMessageFlow, hq],
    by simp [generateCommitMessageFlow, hq], fun hcase => ⟨?_, ?_⟩⟩
  · rcases hcase with hi | hlen
    · simp [generateCommitMessageFlow, hq, hi]
    · cases commits with
      | nil => simp [generateCommitMessageFlow, hq]
      | cons c rest =>
        have hrest : rest = [] := List.length_eq_zero.mp (by simpa using hlen)
        subst hrest
        simp [generateCommitMessageFlow, hq]
  · rintro c rest rfl
    rcases hcase with hi | hlen
    · simp [generateCommitMessageFlow, hq, hi]
    · have hrest : rest = [] := List.length_eq_zero.mp (by simpa using hlen)
      subst hrest
      simp [generateCommitMessageFlow, hq]

/-- Witness for C9 (amended): a plain quick-mode run with two candidates
stays prompt-free and commits the first candidate. -/
theorem quick_mode_no_confirmation_witness :
    (generateCommitMessageFlow ⟨false, false, false, true⟩
        [⟨"a".data, "x".data⟩, ⟨"b".data, "y".data⟩] "u".data false).confirmPrompted
      = false ∧
    (generateCommitMessageFlow ⟨false, false, false, true⟩
        [⟨"a".data, "x".data⟩, ⟨"b".data, "y".data⟩] "u".data false).selectionPrompted
      = false ∧
    (generateCommitMessageFlow ⟨false, false, false, true⟩
        [⟨"a".data, "x".data⟩, ⟨"b".data, "y".data⟩] "u".data false).selected
      = "a".data :=
  ⟨(quick_mode_no_confirmation ⟨false, false, false, true⟩
      [⟨"a".data, "x".data⟩, ⟨"b".data, "y".data⟩] "u".data false rfl).1,
   ((quick_mode_no_confirmation ⟨false, false, false, true⟩
      [⟨"a".data, "x".data⟩, ⟨"b".data, "y".data⟩] "u".data false rfl).2.2.2
      (Or.inl rfl)).1,
   ((quick_mode_no_confirmation ⟨false, false, false, true⟩
      [⟨"a".data, "x".data⟩, ⟨"b".data, "y".data⟩] "u".data false rfl).2.2.2
      (Or.inl rfl)).2 _ _ rfl⟩

/-- C10: the executor's commit step runs exactly
`git commit -m "` + escaped message + `"`, where escaping replaces each
double quote by backslash-quote and changes nothing else — backticks,
dollar signs, backslashes and newlines pass through untouched. -/
theorem commit_command_escaping (m : List Char) :
    commitCommand m = "git commit -m \"".data ++
      (m.flatMap fun c => if c = '"' then ['\\', '"'] else [c]) ++ "\"".data ∧
    (∀ c, c ≠ '"' → escapeQuotes [c] = [c]) ∧
    escapeQuotes "`$\\\n".data = "`$\\\n".data ∧
    escapeQuotes "a\"b".data = "a\\\"b".data := by
  refine ⟨?_, ?_, by decide, by decide⟩
  · unfold commitCommand
    rw [escapeQuotes_eq_bind]
  · intro c hc
    simp [escapeQuotes, hc]

/-- Witness for C10: the dollar sign is not escaped. -/
theorem commit_command_escaping_witness :
    escapeQuotes ['$'] = ['$'] :=
  (commit_command_escaping []).2.1 '$' (by decide)

end Commit
